/-
Verification of the bsv-address-tracker specification against a shallow
embedding of the repository's JavaScript sources.

Each definition below is translated from a specific source function:
  * `recordTransaction`, `replaceOneUpsert`      — src/services/transaction-tracker.js
  * `verifyTransactionWrite`                     — ConfirmationTracker.verifyTransaction
  * `checkAndArchiveTransactions`                — ConfirmationTracker.checkAndArchiveTransactions
  * `processHistTx`                              — src/services/address-history-fetcher.js
  * `queueWebhook`, `handleWebhookFailure`       — src/services/webhook-processor.js
  * `paginateLoop`                               — src/services/whatsonchain-client.js
  * `putWebhookApply`                            — PUT /webhooks/:id in src/api/server.js
  * `filterContains`, `filterAddresses`          — src/lib/address-filter.js

Instants are modelled as integers (milliseconds), JavaScript numbers as `Int`,
MongoDB documents as Lean structures with `Option` fields for nullable or
absent fields, and collections as association lists keyed by `_id`.
-/
import Mathlib

namespace BsvTracker

/-- Status of an active transaction (`status` field). -/
inductive TxStatus
  | pending
  | confirming
  deriving DecidableEq, Repr

/-- An `activeTransactions` document.  `none` models a null or absent field
(the two are indistinguishable to every read in the sources, which use
falsy checks or `|| default`). -/
structure ActiveTx where
  addresses : List String
  block_height : Option Int
  block_hash : Option String
  block_time : Option Int
  confirmations : Int
  first_seen : Int
  status : TxStatus
  is_historical : Bool
  hex : Option String
  last_verified : Option Int
  deriving DecidableEq, Repr

/-- The `activeTransactions` collection: documents keyed by txid. -/
abbrev ActiveStore := List (String × ActiveTx)

/-- MongoDB `replaceOne(filter, doc, {upsert: true})` keyed on `_id`:
if a document with the key exists it is wholly replaced, otherwise the new
document is inserted. -/
def replaceOneUpsert (store : ActiveStore) (key : String) (doc : ActiveTx) :
    ActiveStore :=
  if store.any (fun kv => kv.1 = key) then
    store.map (fun kv => if kv.1 = key then (key, doc) else kv)
  else
    store ++ [(key, doc)]

/-- The document written by `recordTransaction` (transaction-tracker.js):
`{_id, addresses, block_height: null, block_hash: null, confirmations: 0,
first_seen: now, status: 'pending'}`. -/
def intakeRecord (trackedAddrs : List String) (now : Int) : ActiveTx :=
  { addresses := trackedAddrs
    block_height := none
    block_hash := none
    block_time := none
    confirmations := 0
    first_seen := now
    status := .pending
    is_historical := false
    hex := none
    last_verified := none }

/-- `recordTransaction`'s effect on the `activeTransactions` collection:
a `replaceOne` upsert of the freshly built record. -/
def recordTransaction (store : ActiveStore) (txid : String)
    (trackedAddrs : List String) (now : Int) : ActiveStore :=
  replaceOneUpsert store txid (intakeRecord trackedAddrs now)

/-- Repeated intake of the same txid: each step supplies the tracked
addresses and the wall-clock instant of that intake. -/
def intakeSeq (store : ActiveStore) (txid : String) :
    List (List String × Int) → ActiveStore
  | [] => store
  | (tr, t) :: rest => intakeSeq (recordTransaction store txid tr t) txid rest

/-- First document stored under a given txid, if any. -/
def findTx (store : ActiveStore) (txid : String) : Option ActiveTx :=
  (store.find? (fun kv => kv.1 = txid)).map (·.2)

/-- Number of documents stored under a given txid. -/
def countTx (store : ActiveStore) (txid : String) : Nat :=
  store.countP (fun kv => kv.1 = txid)

theorem findTx_replaceOneUpsert (store : ActiveStore) (key : String)
    (doc : ActiveTx) : findTx (replaceOneUpsert store key doc) key = some doc := by
  unfold replaceOneUpsert findTx
  by_cases hmem : store.any (fun kv => kv.1 = key)
  · simp only [hmem, if_pos]
    induction store with
    | nil => simp at hmem
    | cons kv rest ih =>
      by_cases hk : kv.1 = key
      · simp [List.find?, hk]
      · simp only [List.map_cons, if_neg hk]
        rw [List.find?_cons_of_neg _ (by simpa using hk)]
        apply ih
        simpa [List.any_cons, hk] using hmem
  · simp only [hmem, if_neg, Bool.false_eq_true, not_false_iff]
    rw [List.find?_append]
    have hnone : store.find? (fun kv => kv.1 = key) = none := by
      rw [List.find?_eq_none]
      rw [Bool.not_eq_true, List.any_eq_false] at hmem
      exact hmem
    simp [hnone, List.find?]

theorem countTx_replaceOneUpsert (store : ActiveStore) (key : String)
    (doc : ActiveTx) (h : countTx store key ≤ 1) :
    countTx (replaceOneUpsert store key doc) key = 1 := by
  unfold replaceOneUpsert countTx at *
  by_cases hmem : store.any (fun kv => kv.1 = key)
  · simp only [hmem, if_pos]
    rw [List.countP_map]
    have hcongr : store.countP
        ((fun kv => decide (kv.1 = key)) ∘ fun kv => if kv.1 = key then (key, doc) else kv)
        = store.countP (fun kv => decide (kv.1 = key)) := by
      apply List.countP_congr
      intro kv _
      by_cases hk : kv.1 = key <;> simp [hk]
    rw [hcongr]
    have hpos : 0 < store.countP (fun kv => decide (kv.1 = key)) := by
      rw [List.countP_pos_iff]
      simp only [List.any_eq_true] at hmem
      obtain ⟨kv, hkv, hk⟩ := hmem
      exact ⟨kv, hkv, hk⟩
    omega
  · simp only [hmem, if_neg, Bool.false_eq_true, not_false_iff]
    have hzero : store.countP (fun kv => decide (kv.1 = key)) = 0 := by
      rw [List.countP_eq_zero]
      rw [Bool.not_eq_true, List.any_eq_false] at hmem
      exact hmem
    rw [List.countP_append, hzero]
    simp

/-- Claim C1, counterexample: `recordTransaction` upserts with `replaceOne`,
which replaces the stored document wholesale.  Intaking txid `t` first at
instant 10 with tracked address `a`, then at instant 20 with tracked address
`b`, leaves a record whose `first_seen` is 20 — not the value recorded at the
first intake — and whose `addresses` is `[b]`, not the union `[a, b]`. -/
theorem recordTransaction_no_preserve_counterexample :
    findTx (intakeSeq [] "t" [(["a"], 10), (["b"], 20)]) "t" =
      some (intakeRecord ["b"] 20) ∧
    (intakeRecord ["b"] 20).first_seen ≠ 10 ∧
    (intakeRecord ["b"] 20).addresses ≠ ["a", "b"] :=
  ⟨by decide, by decide, by decide⟩

/-- Claim C1 (amended): intake's upsert does not preserve `first_seen` nor
union `addresses`; it replaces the whole record.  Intaking the same raw
transaction N ≥ 1 times leaves exactly one ActiveTransaction, whose
`first_seen`, `addresses` (and all other fields) are those written by the
*last* intake: status `pending`, null block fields, `confirmations = 0`. -/
theorem intakeSeq_last_write_wins (txid : String) :
    ∀ (steps : List (List String × Int)) (store : ActiveStore),
      countTx store txid ≤ 1 → ∀ (hne : steps ≠ []),
      countTx (intakeSeq store txid steps) txid = 1 ∧
      findTx (intakeSeq store txid steps) txid =
        some (intakeRecord (steps.getLast hne).1 (steps.getLast hne).2)
  | [], _, _, hne => absurd rfl hne
  | (tr, t) :: rest, store, hcount, hne => by
    cases rest with
    | nil =>
      refine ⟨?_, ?_⟩
      · exact countTx_replaceOneUpsert store txid _ hcount
      · simpa [intakeSeq, recordTransaction] using
          findTx_replaceOneUpsert store txid (intakeRecord tr t)
    | cons b l =>
      have hcount' : countTx (recordTransaction store txid tr t) txid ≤ 1 :=
        le_of_eq (countTx_replaceOneUpsert store txid _ hcount)
      have ih := intakeSeq_last_write_wins txid (b :: l)
        (recordTransaction store txid tr t) hcount' (by simp)
      refine ⟨ih.1, ?_⟩
      rw [show ((tr, t) :: b :: l).getLast hne = (b :: l).getLast (by simp) from
        List.getLast_cons _]
      exact ih.2

/-- Claim C1, witness: the amended theorem applied to the two-step intake of
the counterexample, starting from the empty collection. -/
theorem intakeSeq_last_write_wins_witness :
    countTx (intakeSeq [] "t" [(["a"], 10), (["b"], 20)]) "t" = 1 ∧
    findTx (intakeSeq [] "t" [(["a"], 10), (["b"], 20)]) "t" =
      some (intakeRecord ["b"] 20) := by
  have h := intakeSeq_last_write_wins "t" [(["a"], 10), (["b"], 20)] []
    (by decide) (by decide)
  simpa using h

/-- Verbose RPC response of `getRawTransaction(txid, 1)` as read by
`ConfirmationTracker.verifyTransaction` (part_008). -/
structure RpcTx where
  blockhash : Option String
  blockheight : Option Int
  confirmations : Option Int
  blocktime : Option Int
  hex : Option String
  deriving DecidableEq, Repr

/-- The document update performed by `verifyTransaction` (part_008, lines
337–380) on the record of the verified txid.  When the RPC response carries a
`blockhash`, a `$set` overwrites the block fields with the reported values,
sets `confirmations` to `txData.confirmations || 0` and `status` to
`'confirming'` when `txData.confirmations > 0`, else `'pending'`.  When the
response carries no `blockhash` the function only logs: no write happens. -/
def verifyTransactionWrite (r : ActiveTx) (txData : RpcTx) (now : Int) :
    ActiveTx :=
  match txData.blockhash with
  | some bh =>
      { r with
        block_hash := some bh
        block_height := txData.blockheight
        confirmations := txData.confirmations.getD 0
        block_time := txData.blocktime.bind
          (fun t => if t = 0 then none else some (t * 1000))
        hex := txData.hex
        last_verified := some now
        status := if 0 < txData.confirmations.getD 0 then .confirming
                  else .pending }
  | none => r

/-- The spec invariant `status = pending ⇒ block_height = null ∧
block_hash = null ∧ confirmations = 0`. -/
def pendingInv (r : ActiveTx) : Prop :=
  r.status = .pending →
    r.block_height = none ∧ r.block_hash = none ∧ r.confirmations = 0

instance (r : ActiveTx) : Decidable (pendingInv r) := by
  unfold pendingInv; infer_instance

/-- A concrete pending record as created by intake. -/
def samplePendingTx : ActiveTx := intakeRecord ["a"] 10

/-- An RPC response reporting a blockhash with zero confirmations. -/
def zeroConfResponse : RpcTx :=
  { blockhash := some "h", blockheight := some 100, confirmations := some 0,
    blocktime := none, hex := none }

/-- Claim C2, counterexample: the verification write does not preserve the
pending invariant.  Applied to a freshly intaken pending record and an RPC
response that reports a blockhash with `confirmations = 0`, it leaves the
record in status `pending` with non-null `block_hash` and `block_height`. -/
theorem verifyTransactionWrite_pendingInv_counterexample :
    pendingInv samplePendingTx ∧
    (verifyTransactionWrite samplePendingTx zeroConfResponse 11).status =
      .pending ∧
    (verifyTransactionWrite samplePendingTx zeroConfResponse 11).block_hash =
      some "h" ∧
    ¬ pendingInv (verifyTransactionWrite samplePendingTx zeroConfResponse 11) :=
  ⟨by decide, by decide, by decide, by decide⟩

/-- Claim C2 (amended): the pending invariant is preserved by the verification
write only when the RPC response reports no blockhash (no write happens) or
reports strictly positive confirmations (the record leaves `pending`); for a
response with a blockhash and zero confirmations the write leaves the record
`pending` with the reported non-null block fields, violating the invariant. -/
theorem verifyTransactionWrite_pendingInv (r : ActiveTx) (txData : RpcTx)
    (now : Int)
    (hok : txData.blockhash = none ∨ 0 < txData.confirmations.getD 0) :
    pendingInv r → pendingInv (verifyTransactionWrite r txData now) := by
  intro hinv
  cases hok with
  | inl hnone =>
      unfold verifyTransactionWrite
      rw [hnone]
      exact hinv
  | inr hpos =>
      unfold verifyTransactionWrite
      cases hbh : txData.blockhash with
      | none => exact hinv
      | some bh =>
          intro hstat
          simp only [if_pos hpos] at hstat
          exact absurd hstat (by simp)

/-- Claim C2, witness: the amended theorem applied to a pending record and a
response with positive confirmations. -/
theorem verifyTransactionWrite_pendingInv_witness :
    pendingInv
      (verifyTransactionWrite samplePendingTx
        { blockhash := some "h", blockheight := some 100,
          confirmations := some 3, blocktime := none, hex := none } 11) :=
  verifyTransactionWrite_pendingInv samplePendingTx _ 11 (Or.inr (by decide))
    (by decide)

/-- A confirming record with stored block hash `A`. -/
def sampleConfirmingTx : ActiveTx :=
  { addresses := ["a"], block_height := some 100, block_hash := some "A",
    block_time := none, confirmations := 3, first_seen := 10,
    status := .confirming, is_historical := false, hex := none,
    last_verified := none }

/-- An RPC response with no blockhash, as after a reorg orphans the block. -/
def noBlockhashResponse : RpcTx :=
  { blockhash := none, blockheight := none, confirmations := some 0,
    blocktime := none, hex := none }

/-- Claim C3, counterexample: for a `confirming` record whose verification
returns no `blockhash`, the tracker performs no write at all — the record
keeps status `confirming` and its block fields, instead of transitioning to
`pending` with cleared block fields as the claim states. -/
theorem verifyTransactionWrite_no_reorg_clear_counterexample :
    verifyTransactionWrite sampleConfirmingTx noBlockhashResponse 11 =
      sampleConfirmingTx ∧
    (verifyTransactionWrite sampleConfirmingTx noBlockhashResponse 11).status ≠
      .pending ∧
    (verifyTransactionWrite sampleConfirmingTx noBlockhashResponse 11).block_hash
      = some "A" :=
  ⟨by decide, by decide, by decide⟩

/-- Claim C3 (amended): when a verification of a confirming transaction
returns no `blockhash`, the record is left entirely unchanged (no transition
to `pending`, no clearing); when it returns a blockhash — the same or a
different one — the block fields are overwritten with the newly reported
values and the status is recomputed from the reported confirmations
(`confirming` iff positive).  Block fields are never set to null by the
verification write. -/
theorem verifyTransactionWrite_reorg_behavior (r : ActiveTx) (txData : RpcTx)
    (now : Int) :
    (txData.blockhash = none → verifyTransactionWrite r txData now = r) ∧
    (∀ bh, txData.blockhash = some bh →
      (verifyTransactionWrite r txData now).block_hash = some bh ∧
      (verifyTransactionWrite r txData now).block_height = txData.blockheight ∧
      (verifyTransactionWrite r txData now).confirmations =
        txData.confirmations.getD 0 ∧
      ((verifyTransactionWrite r txData now).status = .confirming ↔
        0 < txData.confirmations.getD 0)) := by
  constructor
  · intro hnone
    unfold verifyTransactionWrite
    rw [hnone]
  · intro bh hbh
    unfold verifyTransactionWrite
    rw [hbh]
    refine ⟨rfl, rfl, rfl, ?_⟩
    by_cases hpos : 0 < txData.confirmations.getD 0
    · simp [hpos]
    · simp [hpos]

/-- Claim C3, witness: the amended theorem applied to the confirming record of
the counterexample, for a no-blockhash response (left unchanged) and for a
response reporting a different blockhash `B` (fields overwritten). -/
theorem verifyTransactionWrite_reorg_behavior_witness :
    verifyTransactionWrite sampleConfirmingTx noBlockhashResponse 11 =
      sampleConfirmingTx ∧
    (verifyTransactionWrite sampleConfirmingTx
      { blockhash := some "B", blockheight := some 90,
        confirmations := some 2, blocktime := none, hex := none } 11).block_hash
      = some "B" := by
  constructor
  · exact (verifyTransactionWrite_reorg_behavior sampleConfirmingTx
      noBlockhashResponse 11).1 rfl
  · exact ((verifyTransactionWrite_reorg_behavior sampleConfirmingTx
      { blockhash := some "B", blockheight := some 90,
        confirmations := some 2, blocktime := none, hex := none } 11).2 "B"
      rfl).1

/-- An `archivedTransactions` document, as built by
`checkAndArchiveTransactions` and by the history fetcher. -/
structure ArchivedTx where
  addresses : List String
  block_height : Option Int
  block_hash : Option String
  final_confirmations : Int
  first_seen : Int
  is_historical : Bool
  archived_at : Int
  archive_height : Int
  deriving DecidableEq, Repr

/-- `calculateConfirmations` (part_008, lines 172–177): JavaScript
`!txBlockHeight` is true for both null and 0, so both yield 0. -/
def calculateConfirmations (txBlockHeight : Option Int) (currentHeight : Int) :
    Int :=
  match txBlockHeight with
  | none => 0
  | some h => if h = 0 ∨ currentHeight < h then 0 else currentHeight - h + 1

/-- The default `AUTO_ARCHIVE_AFTER` used by the confirmation tracker
(part_008, line 21). -/
def trackerAutoArchiveAfter : Int := 144

/-- The archival query predicate of `checkAndArchiveTransactions` (part_008,
lines 206–209): `{block_height: {$ne: null, $lte: currentHeight −
autoArchiveAfter + 1}, status: 'confirming'}`. -/
def archiveSelects (autoArchiveAfter currentHeight : Int) (tx : ActiveTx) :
    Bool :=
  match tx.block_height with
  | some h => decide (h ≤ currentHeight - autoArchiveAfter + 1) &&
      decide (tx.status = .confirming)
  | none => false

/-- The mirror archived document built for a selected transaction (part_008,
lines 233–243). -/
def toArchivedDoc (currentHeight now : Int) (tx : ActiveTx) : ArchivedTx :=
  { addresses := tx.addresses
    block_height := tx.block_height
    block_hash := tx.block_hash
    final_confirmations := calculateConfirmations tx.block_height currentHeight
    first_seen := tx.first_seen
    is_historical := tx.is_historical
    archived_at := now
    archive_height := currentHeight }

/-- One archival sweep (`checkAndArchiveTransactions`): selected documents are
inserted into `archivedTransactions` and deleted from `activeTransactions`.
Returns the remaining active collection and the inserted archived documents. -/
def checkAndArchiveTransactions (autoArchiveAfter currentHeight now : Int)
    (active : ActiveStore) : ActiveStore × List (String × ArchivedTx) :=
  (active.filter (fun kv => ! archiveSelects autoArchiveAfter currentHeight kv.2),
   (active.filter (fun kv => archiveSelects autoArchiveAfter currentHeight kv.2)).map
     (fun kv => (kv.1, toArchivedDoc currentHeight now kv.2)))

/-- Claim C5: for a `confirming` active transaction with non-null
`block_height = h`, one archival sweep at tip `tip` moves the record from the
active to the archived collection exactly when `tip − h + 1 ≥
autoArchiveAfter`: at exactly the threshold number of confirmations archival
fires, and one confirmation below it does not. -/
theorem checkAndArchive_boundary (autoArchiveAfter tip now : Int)
    (active : ActiveStore) (txid : String) (tx : ActiveTx) (hgt : Int)
    (hmem : (txid, tx) ∈ active) (hstat : tx.status = .confirming)
    (hbh : tx.block_height = some hgt) :
    (((txid, tx) ∈
        (checkAndArchiveTransactions autoArchiveAfter tip now active).1) ↔
      tip - hgt + 1 < autoArchiveAfter) ∧
    (((txid, toArchivedDoc tip now tx) ∈
        (checkAndArchiveTransactions autoArchiveAfter tip now active).2) ↔
      autoArchiveAfter ≤ tip - hgt + 1) := by
  have hsel : archiveSelects autoArchiveAfter tip tx =
      decide (hgt ≤ tip - autoArchiveAfter + 1) := by
    unfold archiveSelects
    rw [hbh]
    simp [hstat]
  unfold checkAndArchiveTransactions
  constructor
  · rw [List.mem_filter]
    constructor
    · rintro ⟨-, hkeep⟩
      rw [hsel] at hkeep
      simp only [Bool.not_eq_true', decide_eq_false_iff_not, not_le] at hkeep
      omega
    · intro hlt
      refine ⟨hmem, ?_⟩
      rw [hsel]
      simp only [Bool.not_eq_true', decide_eq_false_iff_not, not_le]
      omega
  · constructor
    · intro hin
      obtain ⟨kv, hkv, heq⟩ := List.mem_map.mp hin
      have hkv' := (List.mem_filter.mp hkv).2
      have hfst : kv.1 = txid := congrArg Prod.fst heq
      by_contra hnot
      push_neg at hnot
      unfold archiveSelects at hkv'
      cases hb : kv.2.block_height with
      | none => rw [hb] at hkv'; exact absurd hkv' (by simp)
      | some h2 =>
          rw [hb] at hkv'
          simp only [Bool.and_eq_true, decide_eq_true_eq] at hkv'
          have harch : toArchivedDoc tip now kv.2 = toArchivedDoc tip now tx := by
            have := congrArg Prod.snd heq
            simpa using this
          have hbh2 : kv.2.block_height = tx.block_height := by
            have := congrArg ArchivedTx.block_height harch
            simpa [toArchivedDoc] using this
          rw [hb, hbh] at hbh2
          have : h2 = hgt := by injection hbh2
          omega
    · intro hge
      apply List.mem_map.mpr
      refine ⟨(txid, tx), List.mem_filter.mpr ⟨hmem, ?_⟩, rfl⟩
      rw [hsel]
      simp only [decide_eq_true_eq]
      omega

/-- A confirming record at block height 857, candidate for archival. -/
def sampleArchCandidate : ActiveTx :=
  { addresses := ["a"], block_height := some 857, block_hash := some "H",
    block_time := none, confirmations := 100, first_seen := 1,
    status := .confirming, is_historical := false, hex := none,
    last_verified := none }

/-- Claim C5, witness: with the tracker's default threshold 144, a confirming
transaction at height 857 and tip 1000 (144 confirmations) is archived, and
the same transaction at tip 999 (143 confirmations) is not removed from the
active collection. -/
theorem checkAndArchive_boundary_witness :
    ((("t", sampleArchCandidate) ∈
        (checkAndArchiveTransactions 144 1000 5 [("t", sampleArchCandidate)]).1) ↔
      (1000 : Int) - 857 + 1 < 144) ∧
    ((("t", sampleArchCandidate) ∈
        (checkAndArchiveTransactions 144 999 5 [("t", sampleArchCandidate)]).1) ↔
      (999 : Int) - 857 + 1 < 144) := by
  constructor
  · exact (checkAndArchive_boundary 144 1000 5 [("t", sampleArchCandidate)]
      "t" sampleArchCandidate 857 (by decide) (by decide) (by decide)).1
  · exact (checkAndArchive_boundary 144 999 5 [("t", sampleArchCandidate)]
      "t" sampleArchCandidate 857 (by decide) (by decide) (by decide)).1

/-- An entry of the explorer's confirmed-history result
(`{tx_hash, height}`). -/
structure HistTx where
  tx_hash : String
  height : Int
  deriving DecidableEq, Repr

/-- The default `AUTO_ARCHIVE_AFTER` of `AddressHistoryFetcher`
(address-history-fetcher.js, line 24): `parseInt(...) || 288`. -/
def fetcherAutoArchiveAfter : Int := 288

/-- Classification of one discovered historical transaction that is not yet
present in either collection (`processAddressTransactions`, lines 164–244,
with `getTransactionDetails`):
`confirmations = currentHeight ? currentHeight − tx.height + 1 : 0` (0 is
falsy); `block_height = basicTx.height || null`; if `confirmations ≥
autoArchiveAfter` an archived document is produced, else an active one with
`status = confirmations > 0 ? 'confirming' : 'pending'`. -/
def processHistTx (autoArchiveAfter currentHeight : Int) (address : String)
    (tx : HistTx) (now : Int) : ArchivedTx ⊕ ActiveTx :=
  let confirmations : Int :=
    if currentHeight = 0 then 0 else currentHeight - tx.height + 1
  let blockHeightField : Option Int :=
    if tx.height = 0 then none else some tx.height
  if autoArchiveAfter ≤ confirmations then
    Sum.inl
      { addresses := [address]
        block_height := blockHeightField
        block_hash := none
        final_confirmations := confirmations
        first_seen := now
        is_historical := true
        archived_at := now
        archive_height := currentHeight }
  else
    Sum.inr
      { addresses := [address]
        block_height := blockHeightField
        block_hash := none
        block_time := none
        confirmations := confirmations
        first_seen := now
        status := if 0 < confirmations then .confirming else .pending
        is_historical := true
        hex := none
        last_verified := none }

/-- Claim C4, counterexample: the history fetcher's archive threshold defaults
to 288, not 144.  With defaults, a discovered transaction at height 801 under
tip 1000 has 200 computed confirmations — at least 144, so the claim requires
it to be archived — yet it is written as an *active* transaction (status
`confirming`). -/
theorem processHistTx_default_counterexample :
    (144 : Int) ≤ 1000 - 801 + 1 ∧
    fetcherAutoArchiveAfter = 288 ∧
    processHistTx fetcherAutoArchiveAfter 1000 "a" ⟨"t", 801⟩ 5 =
      Sum.inr
        { addresses := ["a"], block_height := some 801, block_hash := none,
          block_time := none, confirmations := 200, first_seen := 5,
          status := .confirming, is_historical := true, hex := none,
          last_verified := none } :=
  ⟨by decide, rfl, by decide⟩

/-- Claim C4 (amended): for a transaction discovered by the historical
backfill and not already present, with the fetcher's own default threshold of
288 (not 144): if the computed confirmations reach the threshold it is
written directly as an ArchivedTransaction with `is_historical = true`,
`final_confirmations` equal to the computed confirmations and
`archive_height` equal to the tip height; otherwise as an ActiveTransaction
with `is_historical = true` and status `confirming` exactly when the computed
confirmations are positive. -/
theorem processHistTx_classification (tip : Int) (addr : String) (tx : HistTx)
    (now : Int) :
    (fetcherAutoArchiveAfter ≤ (if tip = 0 then 0 else tip - tx.height + 1) →
      ∃ d : ArchivedTx,
        processHistTx fetcherAutoArchiveAfter tip addr tx now = Sum.inl d ∧
        d.is_historical = true ∧
        d.final_confirmations =
          (if tip = 0 then 0 else tip - tx.height + 1) ∧
        d.archive_height = tip) ∧
    ((if tip = 0 then 0 else tip - tx.height + 1) < fetcherAutoArchiveAfter →
      ∃ d : ActiveTx,
        processHistTx fetcherAutoArchiveAfter tip addr tx now = Sum.inr d ∧
        d.is_historical = true ∧
        d.confirmations = (if tip = 0 then 0 else tip - tx.height + 1) ∧
        (d.status = .confirming ↔
          0 < (if tip = 0 then 0 else tip - tx.height + 1))) := by
  constructor
  · intro hge
    simp only [processHistTx]
    rw [if_pos hge]
    exact ⟨_, rfl, rfl, rfl, rfl⟩
  · intro hlt
    simp only [processHistTx]
    rw [if_neg (not_le.mpr hlt)]
    refine ⟨_, rfl, rfl, rfl, ?_⟩
    by_cases hpos : (0 : Int) < (if tip = 0 then 0 else tip - tx.height + 1)
    · simp [hpos]
    · simp [hpos]

/-- Claim C4, witness: the amended theorem applied at tip 10000 to a
transaction at height 9000 (1001 confirmations, archived) and, for the other
branch, at height 9990 (11 confirmations, kept active as `confirming`). -/
theorem processHistTx_classification_witness :
    (∃ d : ArchivedTx,
      processHistTx fetcherAutoArchiveAfter 10000 "a" ⟨"t", 9000⟩ 5 =
        Sum.inl d ∧ d.is_historical = true ∧
      d.final_confirmations = (if (10000 : Int) = 0 then 0 else 10000 - 9000 + 1) ∧
      d.archive_height = 10000) ∧
    (∃ d : ActiveTx,
      processHistTx fetcherAutoArchiveAfter 10000 "b" ⟨"u", 9990⟩ 5 =
        Sum.inr d ∧ d.is_historical = true ∧
      d.confirmations = (if (10000 : Int) = 0 then 0 else 10000 - 9990 + 1) ∧
      (d.status = .confirming ↔
        (0 : Int) < (if (10000 : Int) = 0 then 0 else 10000 - 9990 + 1))) := by
  constructor
  · exact (processHistTx_classification 10000 "a" ⟨"t", 9000⟩ 5).1 (by decide)
  · exact (processHistTx_classification 10000 "b" ⟨"u", 9990⟩ 5).2 (by decide)

/-- Status of a `webhookQueue` delivery document. -/
inductive DeliveryStatus
  | pending
  | processing
  | retry
  | completed
  | failed
  | cancelled
  deriving DecidableEq, Repr

/-- A `webhookQueue` document as inserted by `queueWebhook`
(webhook-processor.js, lines 107–119).  `payloadTxid` is
`payload.transaction._id`; `transaction_id` is the dedicated query field. -/
structure Delivery where
  webhook_id : String
  url : String
  payloadTxid : Option String
  status : DeliveryStatus
  attempts : Int
  created_at : Int
  next_retry : Int
  transaction_id : Option String
  cancel_reason : Option String
  cancelled_at : Option Int
  failed_at : Option Int
  last_error : Option String
  deriving DecidableEq, Repr

/-- The cancel reason written by the coalescing `updateMany`
(webhook-processor.js, line 93). -/
def supersededReason : String := "Superseded by newer transaction update"

/-- Effect on one queue document of the coalescing `updateMany` filter
`{webhook_id, 'payload.transaction._id': txid, status: {$in: ['pending',
'retry']}}` with `$set {status: 'cancelled', cancelled_at, cancel_reason}`. -/
def cancelSuperseded (wid txid : String) (now : Int) (d : Delivery) :
    Delivery :=
  if d.webhook_id = wid ∧ d.payloadTxid = some txid ∧
      (d.status = .pending ∨ d.status = .retry) then
    { d with status := .cancelled, cancelled_at := some now,
             cancel_reason := some supersededReason }
  else d

/-- The fresh queue document inserted by `queueWebhook`. -/
def newDelivery (wid url : String) (payloadTxid : Option String) (now : Int) :
    Delivery :=
  { webhook_id := wid, url := url, payloadTxid := payloadTxid,
    status := .pending, attempts := 0, created_at := now, next_retry := now,
    transaction_id := payloadTxid, cancel_reason := none,
    cancelled_at := none, failed_at := none, last_error := none }

/-- `queueWebhook` (webhook-processor.js, lines 75–133): when the payload
carries a transaction id, first cancel every pending/retry delivery of the
same webhook for that transaction, then insert the new pending delivery. -/
def queueWebhook (queue : List Delivery) (wid url : String)
    (payloadTxid : Option String) (now : Int) : List Delivery :=
  let queue' :=
    match payloadTxid with
    | some t => queue.map (cancelSuperseded wid t now)
    | none => queue
  queue' ++ [newDelivery wid url payloadTxid now]

/-- A sequence of enqueues, each `(webhookId, url, payload txid, instant)`. -/
def enqueueSeq (queue : List Delivery) :
    List (String × String × Option String × Int) → List Delivery
  | [] => queue
  | (w, u, t, n) :: rest => enqueueSeq (queueWebhook queue w u t n) rest

/-- Non-terminal delivery statuses (`pending`, `processing`, `retry`). -/
def nonTerminal (s : DeliveryStatus) : Bool :=
  s = .pending || s = .processing || s = .retry

/-- Coalescing invariant: at most one non-terminal delivery per
`(webhook_id, transaction_id)` pair (for deliveries carrying an id). -/
def coalesced (queue : List Delivery) : Prop :=
  ∀ w t, (queue.countP (fun d => d.webhook_id = w ∧
    d.transaction_id = some t ∧ nonTerminal d.status)) ≤ 1

/-- Queues reachable by enqueues alone: every document was written by
`queueWebhook` (payload txid and `transaction_id` agree) or cancelled by the
coalescing pass, so its status is `pending` or `cancelled`. -/
def enqueueShaped (queue : List Delivery) : Prop :=
  ∀ d ∈ queue, d.payloadTxid = d.transaction_id ∧
    (d.status = .pending ∨ d.status = .cancelled)

theorem enqueueShaped_queueWebhook (queue : List Delivery) (wid url : String)
    (payloadTxid : Option String) (now : Int)
    (h : enqueueShaped queue) :
    enqueueShaped (queueWebhook queue wid url payloadTxid now) := by
  intro d hd
  unfold queueWebhook at hd
  rw [List.mem_append] at hd
  cases hd with
  | inr hnew =>
      simp only [List.mem_singleton] at hnew
      subst hnew
      exact ⟨rfl, Or.inl rfl⟩
  | inl hold =>
      cases payloadTxid with
      | none => exact h d hold
      | some t =>
          obtain ⟨e, he, hde⟩ := List.mem_map.mp hold
          subst hde
          obtain ⟨hids, hstat⟩ := h e he
          unfold cancelSuperseded
          by_cases hc : e.webhook_id = wid ∧ e.payloadTxid = some t ∧
              (e.status = .pending ∨ e.status = .retry)
          · rw [if_pos hc]
            exact ⟨hids, Or.inr rfl⟩
          · rw [if_neg hc]
            exact ⟨hids, hstat⟩

theorem coalesced_queueWebhook (queue : List Delivery) (wid url : String)
    (payloadTxid : Option String) (now : Int)
    (hshape : enqueueShaped queue) (hco : coalesced queue) :
    coalesced (queueWebhook queue wid url payloadTxid now) := by
  intro w t
  cases payloadTxid with
  | none =>
      have hq : queueWebhook queue wid url none now =
          queue ++ [newDelivery wid url none now] := rfl
      rw [hq, List.countP_append]
      have hnew0 : List.countP (fun d => decide (d.webhook_id = w ∧
          d.transaction_id = some t ∧ nonTerminal d.status = true))
          [newDelivery wid url none now] = 0 := by
        simp [List.countP_cons, newDelivery]
      rw [hnew0]
      simpa using hco w t
  | some txid =>
      have hq : queueWebhook queue wid url (some txid) now =
          queue.map (cancelSuperseded wid txid now) ++
            [newDelivery wid url (some txid) now] := rfl
      rw [hq, List.countP_append]
      have hnewle : List.countP (fun d => decide (d.webhook_id = w ∧
          d.transaction_id = some t ∧ nonTerminal d.status = true))
          [newDelivery wid url (some txid) now] ≤ 1 := by
        simpa using List.countP_le_length
          (l := [newDelivery wid url (some txid) now])
          (fun d => decide (d.webhook_id = w ∧
            d.transaction_id = some t ∧ nonTerminal d.status = true))
      by_cases hpair : wid = w ∧ txid = t
      · -- the enqueued pair: every old matching delivery is cancelled
        obtain ⟨hw, ht⟩ := hpair
        subst hw; subst ht
        have hold0 : List.countP (fun d => decide (d.webhook_id = wid ∧
            d.transaction_id = some txid ∧ nonTerminal d.status = true))
            (queue.map (cancelSuperseded wid txid now)) = 0 := by
          rw [List.countP_eq_zero]
          intro d hd
          obtain ⟨e, he, hde⟩ := List.mem_map.mp hd
          obtain ⟨hids, hstat⟩ := hshape e he
          subst hde
          by_cases hc : e.webhook_id = wid ∧ e.payloadTxid = some txid ∧
              (e.status = .pending ∨ e.status = .retry)
          · have hcanc : (cancelSuperseded wid txid now e).status =
                .cancelled := by
              unfold cancelSuperseded; rw [if_pos hc]
            simp [nonTerminal, hcanc]
          · have hceq : cancelSuperseded wid txid now e = e := by
              unfold cancelSuperseded; rw [if_neg hc]
            rw [hceq]
            simp only [decide_eq_true_eq, not_and]
            intro hwid htid
            cases hstat with
            | inl hp =>
                exact absurd ⟨hwid, hids.trans htid, Or.inl hp⟩ hc
            | inr hcan =>
                simp [nonTerminal, hcan]
        rw [hold0]
        simpa using hnewle
      · -- a different pair: the new delivery does not match, and the
        -- cancellation pass only cancels, never creates matches
        have hnew0 : List.countP (fun d => decide (d.webhook_id = w ∧
            d.transaction_id = some t ∧ nonTerminal d.status = true))
            [newDelivery wid url (some txid) now] = 0 := by
          have hnm : ¬((newDelivery wid url (some txid) now).webhook_id = w ∧
              (newDelivery wid url (some txid) now).transaction_id = some t ∧
              nonTerminal (newDelivery wid url (some txid) now).status
                = true) := by
            intro ⟨h1, h2, _⟩
            exact hpair ⟨h1, by simpa [newDelivery] using h2⟩
          simp [List.countP_cons, hnm]
        rw [hnew0]
        have hle : List.countP (fun d => decide (d.webhook_id = w ∧
            d.transaction_id = some t ∧ nonTerminal d.status = true))
            (queue.map (cancelSuperseded wid txid now)) ≤
            List.countP (fun d => decide (d.webhook_id = w ∧
            d.transaction_id = some t ∧ nonTerminal d.status = true)) queue := by
          rw [List.countP_map]
          apply List.countP_mono_left
          intro e _ he
          simp only [Function.comp, decide_eq_true_eq] at he ⊢
          by_cases hc : e.webhook_id = wid ∧ e.payloadTxid = some txid ∧
              (e.status = .pending ∨ e.status = .retry)
          · have hcanc : (cancelSuperseded wid txid now e).status =
                .cancelled := by
              unfold cancelSuperseded; rw [if_pos hc]
            rw [hcanc] at he
            exact absurd he.2.2 (by simp [nonTerminal])
          · have hceq : cancelSuperseded wid txid now e = e := by
              unfold cancelSuperseded; rw [if_neg hc]
            rw [hceq] at he
            exact he
        have := hco w t
        omega

/-- Claim C6: starting from an empty delivery queue, after any sequence of
`queueWebhook` enqueues at most one delivery per `(webhook_id,
transaction_id)` pair is in a non-terminal status; moreover each enqueue
carrying a transaction id first sets every previously pending or retry
delivery of the same webhook for that transaction to `cancelled` with the
superseded cancel reason, before inserting the new pending delivery. -/
theorem queueWebhook_coalesces :
    (∀ ops, coalesced (enqueueSeq [] ops)) ∧
    (∀ (queue : List Delivery) (wid url txid : String) (now : Int),
      ∀ d ∈ queue, d.webhook_id = wid → d.payloadTxid = some txid →
        (d.status = .pending ∨ d.status = .retry) →
        (cancelSuperseded wid txid now d).status = .cancelled ∧
        (cancelSuperseded wid txid now d).cancel_reason =
          some supersededReason ∧
        (cancelSuperseded wid txid now d) ∈
          queueWebhook queue wid url (some txid) now) := by
  constructor
  · intro ops
    have hgen : ∀ (ops : List (String × String × Option String × Int))
        (q : List Delivery), enqueueShaped q → coalesced q →
        coalesced (enqueueSeq q ops) := by
      intro ops
      induction ops with
      | nil => intro q _ hco; exact hco
      | cons op rest ih =>
          intro q hshape hco
          obtain ⟨w, u, t, n⟩ := op
          exact ih (queueWebhook q w u t n)
            (enqueueShaped_queueWebhook q w u t n hshape)
            (coalesced_queueWebhook q w u t n hshape hco)
    exact hgen ops [] (by intro d hd; simp at hd) (by intro w t; simp)
  · intro queue wid url txid now d hd hw ht hstat
    have hc : d.webhook_id = wid ∧ d.payloadTxid = some txid ∧
        (d.status = .pending ∨ d.status = .retry) := ⟨hw, ht, hstat⟩
    refine ⟨?_, ?_, ?_⟩
    · unfold cancelSuperseded; rw [if_pos hc]
    · unfold cancelSuperseded; rw [if_pos hc]
    · unfold queueWebhook
      rw [List.mem_append]
      exact Or.inl (List.mem_map.mpr ⟨d, hd, rfl⟩)

/-- Claim C6, witness: enqueuing three deliveries for the same
`(webhook, txid)` pair from the empty queue leaves a coalesced queue, and the
theorem's second part applied to a concrete pending delivery shows it is
cancelled with the superseded reason by a later enqueue. -/
theorem queueWebhook_coalesces_witness :
    coalesced (enqueueSeq []
      [("w", "u", some "t", 1), ("w", "u", some "t", 2),
       ("w", "u", some "t", 3)]) ∧
    (cancelSuperseded "w" "t" 2 (newDelivery "w" "u" (some "t") 1)).status =
      .cancelled := by
  constructor
  · exact queueWebhook_coalesces.1
      [("w", "u", some "t", 1), ("w", "u", some "t", 2), ("w", "u", some "t", 3)]
  · exact (queueWebhook_coalesces.2 [newDelivery "w" "u" (some "t") 1]
      "w" "u" "t" 2 (newDelivery "w" "u" (some "t") 1) (by simp)
      rfl rfl (Or.inl rfl)).1

/-- The retry backoff schedule (webhook-processor.js, line 25):
1 s, 5 s, 30 s, 5 min, 1 h, in milliseconds. -/
def webhookRetryDelays : List Int := [1000, 5000, 30000, 300000, 3600000]

/-- The default `WEBHOOK_MAX_RETRIES` (webhook-processor.js, line 24). -/
def webhookMaxRetries : Int := 5

/-- `handleWebhookFailure` (webhook-processor.js, lines 323–371): increment
`attempts`; at `maxRetries` or beyond mark `failed` with `failed_at = now`;
otherwise mark `retry` with `next_retry = now +
retryDelays[min(attempts − 1, 4)]`. -/
def handleWebhookFailure (maxRetries : Int) (d : Delivery) (now : Int)
    (err : String) : Delivery :=
  let attempts := d.attempts + 1
  if maxRetries ≤ attempts then
    { d with status := .failed, failed_at := some now, attempts := attempts,
             last_error := some err }
  else
    { d with status := .retry, attempts := attempts,
             next_retry := now + webhookRetryDelays.getD
               (min (attempts - 1).toNat (webhookRetryDelays.length - 1)) 0,
             last_error := some err }

/-- Claim C7: a failed delivery attempt increments `attempts`; with the
default maximum of 5, if the incremented count reaches 5 the delivery becomes
`failed` with `failed_at` set, otherwise it becomes `retry` with `next_retry
= now + backoff[min(attempts − 1, 4)]` for the backoff table
[1 s, 5 s, 30 s, 5 min, 1 h]. -/
theorem handleWebhookFailure_spec (d : Delivery) (now : Int) (err : String)
    (hnn : 0 ≤ d.attempts) :
    (handleWebhookFailure webhookMaxRetries d now err).attempts =
      d.attempts + 1 ∧
    (5 ≤ d.attempts + 1 →
      (handleWebhookFailure webhookMaxRetries d now err).status = .failed ∧
      (handleWebhookFailure webhookMaxRetries d now err).failed_at =
        some now) ∧
    (d.attempts + 1 < 5 →
      (handleWebhookFailure webhookMaxRetries d now err).status = .retry ∧
      (handleWebhookFailure webhookMaxRetries d now err).next_retry =
        now + [(1000 : Int), 5000, 30000, 300000, 3600000].getD
          (min (d.attempts).toNat 4) 0) := by
  unfold handleWebhookFailure webhookMaxRetries
  by_cases hge : (5 : Int) ≤ d.attempts + 1
  · rw [if_pos hge]
    refine ⟨rfl, fun _ => ⟨rfl, rfl⟩, fun hlt => absurd hge (not_le.mpr hlt)⟩
  · rw [if_neg hge]
    refine ⟨rfl, fun hge' => absurd hge' hge, fun _ => ⟨rfl, ?_⟩⟩
    have : (d.attempts + 1 - 1).toNat = d.attempts.toNat := by omega
    rw [this]
    rfl

/-- Claim C7, witness: the theorem applied to a delivery with 1 prior attempt
(becomes `retry` with the 5 s backoff) — instantiating the retry branch. -/
theorem handleWebhookFailure_spec_witness :
    (handleWebhookFailure webhookMaxRetries
        (newDelivery "w" "u" none 0) 100 "boom").attempts = 0 + 1 ∧
    ((0 : Int) + 1 < 5 →
      (handleWebhookFailure webhookMaxRetries
        (newDelivery "w" "u" none 0) 100 "boom").status = .retry ∧
      (handleWebhookFailure webhookMaxRetries
        (newDelivery "w" "u" none 0) 100 "boom").next_retry =
        100 + [(1000 : Int), 5000, 30000, 300000, 3600000].getD
          (min ((0 : Int)).toNat 4) 0) := by
  have h := handleWebhookFailure_spec (newDelivery "w" "u" none 0) 100 "boom"
    (by decide)
  exact ⟨h.1, h.2.2⟩

/-- One page of the explorer confirmed-history endpoint:
`{result: [...], next?}`. -/
structure WocPage where
  result : List HistTx
  next : Option String
  deriving DecidableEq, Repr

/-- The explorer page size (whatsonchain-client.js, line 382). -/
def wocPageSize : Nat := 100

/-- The pagination loop of `getAddressConfirmedHistoryWithPagination`
(whatsonchain-client.js, lines 386–430), with the successive server responses
modelled as a list of pages and the `pagesProcessed < maxPages` guard as
fuel.  Returns the accumulated transactions and the number of page requests
made.  An exhausted page list models a null response (`!response` breaks). -/
def paginateLoop (maxTransactions : Nat) :
    Nat → List WocPage → List HistTx → List HistTx × Nat
  | 0, _, acc => (acc, 0)
  | _ + 1, [], acc => (acc, 1)
  | fuel + 1, page :: rest, acc =>
    if page.result.isEmpty then (acc, 1)
    else if page.next.isSome ∧
        (acc ++ page.result).length < maxTransactions then
      if page.result.length < wocPageSize then (acc ++ page.result, 1)
      else
        ((paginateLoop maxTransactions fuel rest (acc ++ page.result)).1,
         (paginateLoop maxTransactions fuel rest (acc ++ page.result)).2 + 1)
    else (acc ++ page.result, 1)

/-- `getAddressConfirmedHistoryWithPagination(address, maxTransactions)`:
runs the loop with `maxPages = ceil(maxTransactions / 100)` and trims the
result to `maxTransactions` (`allTransactions.splice`). -/
def getHistoryWithPagination (pages : List WocPage) (maxTransactions : Nat) :
    List HistTx × Nat :=
  ((paginateLoop maxTransactions
      ((maxTransactions + wocPageSize - 1) / wocPageSize) pages []).1.take
        maxTransactions,
   (paginateLoop maxTransactions
      ((maxTransactions + wocPageSize - 1) / wocPageSize) pages []).2)

/-- A well-formed server page chain: every page before the last is full
(100 entries) and carries a next-page token; the last page carries no token
and at most 100 entries. -/
def wocWellFormed : List WocPage → Prop
  | [] => True
  | [p] => p.next = none ∧ p.result.length ≤ wocPageSize
  | p :: q :: rest =>
      p.next.isSome = true ∧ p.result.length = wocPageSize ∧
        wocWellFormed (q :: rest)

instance wocWellFormedDec : (l : List WocPage) → Decidable (wocWellFormed l)
  | [] => by unfold wocWellFormed; infer_instance
  | [_] => by unfold wocWellFormed; infer_instance
  | _ :: q :: rest => by
      letI := wocWellFormedDec (q :: rest)
      unfold wocWellFormed
      infer_instance

/-- Total number of history entries the server would serve over the whole
page chain. -/
def totalAvail (pages : List WocPage) : Nat :=
  (pages.map (fun p => p.result.length)).sum

theorem paginateLoop_length_le (maxTx : Nat) :
    ∀ (fuel : Nat) (pages : List WocPage) (acc : List HistTx),
      (paginateLoop maxTx fuel pages acc).1.length ≤
        acc.length + totalAvail pages
  | 0, pages, acc => by simp [paginateLoop]
  | _ + 1, [], acc => by simp [paginateLoop]
  | fuel + 1, p :: rest, acc => by
      unfold paginateLoop
      by_cases hemp : p.result.isEmpty
      · rw [if_pos hemp]
        simp
      · rw [if_neg hemp]
        by_cases hcont : p.next.isSome = true ∧
            (acc ++ p.result).length < maxTx
        · rw [if_pos hcont]
          by_cases hpart : p.result.length < wocPageSize
          · rw [if_pos hpart]
            simp only [List.length_append, totalAvail, List.map_cons,
              List.sum_cons]
            omega
          · rw [if_neg hpart]
            have ih := paginateLoop_length_le maxTx fuel rest (acc ++ p.result)
            simp only [List.length_append, totalAvail, List.map_cons,
              List.sum_cons] at ih ⊢
            omega
        · rw [if_neg hcont]
          simp only [List.length_append, totalAvail, List.map_cons,
            List.sum_cons]
          omega

theorem paginateLoop_length_ge (maxTx : Nat) :
    ∀ (fuel : Nat) (pages : List WocPage) (acc : List HistTx),
      wocWellFormed pages →
      min (acc.length + totalAvail pages)
        (min (acc.length + wocPageSize * fuel) maxTx) ≤
          (paginateLoop maxTx fuel pages acc).1.length
  | 0, pages, acc, _ => by
      simp only [paginateLoop, Nat.mul_zero, Nat.add_zero]
      omega
  | _ + 1, [], acc, _ => by
      simp only [paginateLoop, totalAvail, List.map_nil, List.sum_nil,
        Nat.add_zero]
      omega
  | fuel + 1, [p], acc, hwf => by
      obtain ⟨hnone, _⟩ := hwf
      unfold paginateLoop
      by_cases hemp : p.result.isEmpty
      · rw [if_pos hemp]
        have hlen0 : p.result.length = 0 := by
          simpa [List.isEmpty_iff_length_eq_zero] using hemp
        simp only [totalAvail, List.map_cons, List.map_nil, List.sum_cons,
          List.sum_nil, hlen0]
        omega
      · rw [if_neg hemp]
        have hns : p.next.isSome = false := by simp [hnone]
        rw [if_neg (by simp [hns])]
        simp only [totalAvail, List.map_cons, List.map_nil, List.sum_cons,
          List.sum_nil, List.length_append]
        omega
  | fuel + 1, p :: q :: rest, acc, hwf => by
      obtain ⟨hsome, hfull, hwf'⟩ := hwf
      unfold paginateLoop
      have hemp : ¬ p.result.isEmpty := by
        rw [List.isEmpty_iff_length_eq_zero, hfull]
        simp [wocPageSize]
      rw [if_neg hemp]
      by_cases hcont : p.next.isSome = true ∧ (acc ++ p.result).length < maxTx
      · rw [if_pos hcont]
        rw [if_neg (by omega : ¬ p.result.length < wocPageSize)]
        have ih := paginateLoop_length_ge maxTx fuel (q :: rest)
          (acc ++ p.result) hwf'
        simp only [List.length_append, totalAvail, List.map_cons,
          List.sum_cons, hfull, wocPageSize, Nat.mul_succ, Nat.mul_add,
          Nat.mul_one] at ih ⊢
        omega
      · rw [if_neg hcont]
        have hge : maxTx ≤ (acc ++ p.result).length := by
          rcases not_and_or.mp hcont with h | h
          · exact absurd hsome h
          · omega
        simp only [List.length_append, totalAvail, List.map_cons,
          List.sum_cons, hfull, wocPageSize] at hge ⊢
        omega

theorem paginateLoop_requests_le (maxTx : Nat) :
    ∀ (fuel : Nat) (pages : List WocPage) (acc : List HistTx),
      (paginateLoop maxTx fuel pages acc).2 ≤ fuel
  | 0, _, _ => le_refl 0
  | _ + 1, [], _ => by simp [paginateLoop]
  | fuel + 1, p :: rest, acc => by
      unfold paginateLoop
      by_cases hemp : p.result.isEmpty
      · rw [if_pos hemp]; simp
      · rw [if_neg hemp]
        by_cases hcont : p.next.isSome = true ∧
            (acc ++ p.result).length < maxTx
        · rw [if_pos hcont]
          by_cases hpart : p.result.length < wocPageSize
          · rw [if_pos hpart]; simp
          · rw [if_neg hpart]
            have ih := paginateLoop_requests_le maxTx fuel rest (acc ++ p.result)
            simpa using Nat.add_le_add_right ih 1
        · rw [if_neg hcont]; simp

/-- Claim C8: against a well-formed page chain (full pages with tokens, then
one final short page without), the pagination helper returns exactly
`min(total available, maxTransactions)` entries and performs at most
`ceil(maxTransactions / 100)` page requests — so with `maxTransactions = 500`
and at least five full pages it never requests a sixth. -/
theorem getHistoryWithPagination_spec (pages : List WocPage) (maxTx : Nat)
    (hwf : wocWellFormed pages) :
    (getHistoryWithPagination pages maxTx).1.length =
      min (totalAvail pages) maxTx ∧
    (getHistoryWithPagination pages maxTx).2 ≤
      (maxTx + wocPageSize - 1) / wocPageSize := by
  have hub := paginateLoop_length_le maxTx
    ((maxTx + wocPageSize - 1) / wocPageSize) pages []
  have hlb := paginateLoop_length_ge maxTx
    ((maxTx + wocPageSize - 1) / wocPageSize) pages [] hwf
  have hreq := paginateLoop_requests_le maxTx
    ((maxTx + wocPageSize - 1) / wocPageSize) pages []
  unfold getHistoryWithPagination
  refine ⟨?_, hreq⟩
  rw [List.length_take]
  simp only [List.length_nil, Nat.zero_add, wocPageSize] at hub hlb ⊢
  omega

/-- Five full pages with tokens followed by a short sixth page the loop must
never request. -/
def sixPageServer : List WocPage :=
  [⟨List.replicate 100 ⟨"t1", 1⟩, some "p2"⟩,
   ⟨List.replicate 100 ⟨"t2", 2⟩, some "p3"⟩,
   ⟨List.replicate 100 ⟨"t3", 3⟩, some "p4"⟩,
   ⟨List.replicate 100 ⟨"t4", 4⟩, some "p5"⟩,
   ⟨List.replicate 100 ⟨"t5", 5⟩, some "p6"⟩,
   ⟨[⟨"t6", 6⟩], none⟩]

/-- Claim C8, witness: the theorem applied to a server with five full pages
plus a sixth, at `maxTransactions = 500`: exactly 500 = min(501, 500)
entries come back and at most five (in fact exactly five) requests are
made — the sixth page is never fetched. -/
theorem getHistoryWithPagination_spec_witness :
    (getHistoryWithPagination sixPageServer 500).1.length =
      min (totalAvail sixPageServer) 500 ∧
    (getHistoryWithPagination sixPageServer 500).2 ≤
      (500 + wocPageSize - 1) / wocPageSize := by
  exact getHistoryWithPagination_spec sixPageServer 500 (by decide)

/-- A `webhooks` document (server.js, lines 517–525). -/
structure Webhook where
  url : String
  addresses : List String
  monitor_all : Bool
  active : Bool
  deriving DecidableEq, Repr

/-- The `addresses` field of a PUT body: absent (`undefined`), an array, or a
non-array value (coerced to `[]` by the handler). -/
inductive BodyAddresses
  | absent
  | arr (l : List String)
  | notArr
  deriving DecidableEq, Repr

/-- The body of `PUT /webhooks/:id` (server.js, line 663): each field is
`undefined` when missing.  `url`, when present, is assumed to pass the URL
validation (an invalid URL returns 400 without updating). -/
structure PutBody where
  url : Option String
  addresses : BodyAddresses
  active : Option Bool
  monitor_all : Option Bool
  deriving DecidableEq, Repr

/-- The `updateFields` construction and `$set` of the `PUT /webhooks/:id`
handler (server.js, lines 671–709), applied to the stored webhook: `url` and
`active` copied when supplied; a supplied `monitor_all` is stored, and when
truthy also forces `addresses := []`; a supplied `addresses` is stored (as
`[]` when not an array) only when the *body's* `monitor_all` is not truthy.
(When no field is supplied the handler answers 400 without writing, which
leaves the same stored document.) -/
def putWebhookApply (w : Webhook) (b : PutBody) : Webhook :=
  let f1 : Webhook :=
    match b.url with
    | some u => { w with url := u }
    | none => w
  let f2 : Webhook :=
    match b.active with
    | some a => { f1 with active := a }
    | none => f1
  let f3 : Webhook :=
    match b.monitor_all with
    | some m =>
        if m then { f2 with monitor_all := m, addresses := [] }
        else { f2 with monitor_all := m }
    | none => f2
  match b.addresses with
  | .absent => f3
  | .arr l => if b.monitor_all ≠ some true then { f3 with addresses := l } else f3
  | .notArr => if b.monitor_all ≠ some true then { f3 with addresses := [] } else f3

/-- The spec invariant `monitor_all = true ⇒ addresses = ∅`. -/
def webhookInv (w : Webhook) : Prop :=
  w.monitor_all = true → w.addresses = []

instance (w : Webhook) : Decidable (webhookInv w) := by
  unfold webhookInv; infer_instance

/-- A monitor-all webhook satisfying the invariant. -/
def sampleMonitorAll : Webhook :=
  { url := "https://example.test/hook", addresses := [], monitor_all := true,
    active := true }

/-- Claim C9, counterexample: a PUT whose body supplies a non-empty
`addresses` array but omits `monitor_all`, against a stored webhook with
`monitor_all = true`, writes the non-empty array while leaving
`monitor_all = true` — the handler's guard checks the *body's* `monitor_all`,
not the stored one, so the stored webhook violates the invariant. -/
theorem putWebhook_invariant_counterexample :
    webhookInv sampleMonitorAll ∧
    (putWebhookApply sampleMonitorAll
      { url := none, addresses := .arr ["a1"], active := none,
        monitor_all := none }).monitor_all = true ∧
    (putWebhookApply sampleMonitorAll
      { url := none, addresses := .arr ["a1"], active := none,
        monitor_all := none }).addresses = ["a1"] ∧
    ¬ webhookInv (putWebhookApply sampleMonitorAll
      { url := none, addresses := .arr ["a1"], active := none,
        monitor_all := none }) :=
  ⟨by decide, by decide, by decide, by decide⟩

/-- Claim C9 (amended): the `monitor_all = true ⇒ addresses = ∅` invariant is
preserved by `PUT /webhooks/:id` whenever the body supplies `monitor_all`
explicitly or supplies no `addresses` field; it is *not* preserved when the
body supplies addresses while omitting `monitor_all` against a stored
monitor-all webhook (see the counterexample). -/
theorem putWebhook_invariant_preserved (w : Webhook) (b : PutBody)
    (hinv : webhookInv w)
    (hcase : b.monitor_all ≠ none ∨ b.addresses = .absent) :
    webhookInv (putWebhookApply w b) := by
  obtain ⟨u0, ad0, ac0, m0⟩ := b
  unfold putWebhookApply
  cases m0 with
  | some m =>
      cases m <;> cases ad0 <;> cases u0 <;> cases ac0 <;>
        first
          | exact fun hmt => rfl
          | exact fun hmt => Bool.noConfusion (show false = true from hmt)
  | none =>
      cases ad0 with
      | absent => cases u0 <;> cases ac0 <;> exact fun hmt => hinv hmt
      | arr l =>
          rcases hcase with hmn | hab
          · exact absurd rfl hmn
          · exact absurd hab (by simp)
      | notArr =>
          rcases hcase with hmn | hab
          · exact absurd rfl hmn
          · exact absurd hab (by simp)

/-- Claim C9, witness: the amended theorem applied to the monitor-all webhook
and a body that supplies both a non-empty `addresses` array and
`monitor_all = true` — the handler forces `addresses := []` and the invariant
survives. -/
theorem putWebhook_invariant_preserved_witness :
    webhookInv (putWebhookApply sampleMonitorAll
      { url := none, addresses := .arr ["a1"], active := none,
        monitor_all := some true }) :=
  putWebhook_invariant_preserved sampleMonitorAll
    { url := none, addresses := .arr ["a1"], active := none,
      monitor_all := some true } (by decide) (Or.inl (by decide))

/-- A JavaScript value as passed to the public filter interface. -/
inductive JsVal
  | jstr (s : String)
  | jnum (n : Int)
  | jbool (b : Bool)
  | jnull
  | jundef
  deriving DecidableEq, Repr

/-- JavaScript truthiness of a `JsVal` (`!address` tests falsiness: empty
string, 0, false, null, undefined are falsy). -/
def jsTruthy : JsVal → Bool
  | .jstr s => !(s = "")
  | .jnum n => !(n = 0)
  | .jbool b => b
  | .jnull => false
  | .jundef => false

/-- Whether a `JsVal` is a string (`typeof address === 'string'`). -/
def jsIsString : JsVal → Bool
  | .jstr _ => true
  | _ => false

/-- `AddressFilter.contains` (address-filter.js, lines 58–64): falsy or
non-string arguments return false; otherwise a set lookup. -/
def filterContains (addrs : List String) (v : JsVal) : Bool :=
  if !(jsTruthy v) || !(jsIsString v) then false
  else
    match v with
    | .jstr s => addrs.contains s
    | _ => false

/-- An argument to `filterAddresses`: an array of values or a non-array. -/
inductive JsArg
  | array (l : List JsVal)
  | notArray (v : JsVal)
  deriving DecidableEq, Repr

/-- `AddressFilter.filterAddresses` (address-filter.js, lines 71–85):
non-array arguments return `[]`; an array is walked in order, keeping the
elements on which `contains` answers true. -/
def filterAddresses (addrs : List String) (arg : JsArg) : List JsVal :=
  match arg with
  | .notArray _ => []
  | .array l => l.filter (filterContains addrs)

/-- Membership of a `JsVal` in the filter's string set. -/
def inFilterSet (addrs : List String) (v : JsVal) : Prop :=
  ∃ s, v = .jstr s ∧ s ∈ addrs

instance (addrs : List String) (v : JsVal) : Decidable (inFilterSet addrs v) := by
  cases v with
  | jstr s =>
      refine decidable_of_iff (s ∈ addrs) ?_
      constructor
      · intro h; exact ⟨s, rfl, h⟩
      · rintro ⟨s', hs', hmem⟩
        cases hs'; exact hmem
  | jnum n => exact isFalse (by rintro ⟨s, hs, -⟩; cases hs)
  | jbool b => exact isFalse (by rintro ⟨s, hs, -⟩; cases hs)
  | jnull => exact isFalse (by rintro ⟨s, hs, -⟩; cases hs)
  | jundef => exact isFalse (by rintro ⟨s, hs, -⟩; cases hs)

/-- Claim C10: the public filter interface is total — `contains` returns
false on null, undefined and every non-string value; `filterAddresses`
returns `[]` on every non-array argument; and on an array whose membership
set contains only non-empty strings (true of every set of base58 addresses),
it returns exactly the elements currently in the set, in input order. -/
theorem addressFilter_total (addrs : List String)
    (hne : "" ∉ addrs) :
    (∀ v : JsVal, (v = .jnull ∨ v = .jundef ∨ jsIsString v = false) →
      filterContains addrs v = false) ∧
    (∀ v : JsVal, filterAddresses addrs (.notArray v) = []) ∧
    (∀ l : List JsVal,
      filterAddresses addrs (.array l) =
        l.filter (fun v => decide (inFilterSet addrs v))) := by
  have hfc : ∀ v : JsVal, jsIsString v = false →
      filterContains addrs v = false := by
    intro v hv
    unfold filterContains
    rw [hv]
    simp
  refine ⟨?_, fun _ => rfl, ?_⟩
  · intro v hv
    rcases hv with h | h | h
    · subst h; rfl
    · subst h; rfl
    · exact hfc v h
  · intro l
    unfold filterAddresses
    apply List.filter_congr
    intro v _
    cases v with
    | jstr s =>
        by_cases hs : s = ""
        · subst hs
          have hL : filterContains addrs (.jstr "") = false := rfl
          rw [hL]
          symm
          simp only [decide_eq_false_iff_not]
          rintro ⟨s', hs', hmem⟩
          injection hs' with h
          subst h
          exact hne hmem
        · have hL : filterContains addrs (.jstr s) = addrs.contains s := by
            unfold filterContains
            rw [if_neg]
            simp [jsTruthy, jsIsString, hs]
          rw [hL]
          rw [show addrs.contains s = decide (s ∈ addrs) from
            List.elem_eq_mem s addrs]
          rw [decide_eq_decide]
          constructor
          · intro hmem
            exact ⟨s, rfl, hmem⟩
          · rintro ⟨s', hs', hmem⟩
            injection hs' with h
            subst h
            exact hmem
    | jnum n =>
        rw [hfc (.jnum n) rfl]
        symm
        simp only [decide_eq_false_iff_not]
        rintro ⟨s', hs', -⟩
        cases hs'
    | jbool b =>
        rw [hfc (.jbool b) rfl]
        symm
        simp only [decide_eq_false_iff_not]
        rintro ⟨s', hs', -⟩
        cases hs'
    | jnull =>
        rw [hfc .jnull rfl]
        symm
        simp only [decide_eq_false_iff_not]
        rintro ⟨s', hs', -⟩
        cases hs'
    | jundef =>
        rw [hfc .jundef rfl]
        symm
        simp only [decide_eq_false_iff_not]
        rintro ⟨s', hs', -⟩
        cases hs'

/-- Claim C10, witness: the theorem applied to the set `{a, b}`: `contains`
rejects null, a non-array argument filters to `[]`, and an array mixing
members, non-members and junk values filters to exactly the members in input
order. -/
theorem addressFilter_total_witness :
    filterContains ["a", "b"] .jnull = false ∧
    filterAddresses ["a", "b"] (.notArray (.jnum 3)) = [] ∧
    filterAddresses ["a", "b"]
      (.array [.jstr "b", .jnull, .jstr "x", .jnum 0, .jstr "a"]) =
      [.jstr "b", .jstr "a"] := by
  have h := addressFilter_total ["a", "b"] (by decide)
  refine ⟨h.1 .jnull (Or.inl rfl), h.2.1 (.jnum 3), ?_⟩
  rw [h.2.2 [.jstr "b", .jnull, .jstr "x", .jnum 0, .jstr "a"]]
  decide

end BsvTracker
